import Mathlib

/-!
Shallow embedding of the flash-buffered-write engine
(`src/subsys/storage/flash_buffered_write/fbw.c`).

The engine is modelled state-passing style: each C function becomes a Lean
function from the context (plus its arguments) to the returned error code,
the updated context, and the list of flash-driver / hook calls it issued
(the "events"), in issue order.  The flash device is an abstract record of
pure functions returning driver error codes, mirroring the flash driver API
the engine consumes; data bytes never influence any branch of the engine, so
buffer contents are not tracked.

`size_t` values are modelled as `Nat`.  The repository targets a 32-bit ARM
SoC (`src/soc/arm/st_stm32/stm32g4/soc.h`), so `size_t` arithmetic wraps at
`2 ^ 32`; the wrap is made explicit (`% SIZE_T_MOD`) in the caller-facing
compound expressions where a single call's arguments can overflow: the
capacity check of `fbw_write` and the `offset + size` / total-size
computations of `fbw_init`.  The remaining size_t expressions
(`bytes_written + buf_bytes`, `write_addr`, the loop bookkeeping) stay below
`2 ^ 32` whenever the fields do, and are modelled exactly.
`off_t` is signed and is modelled as `Int` (the erase bookmark sentinel
is `-1`).
-/

/-- The value `2 ^ 32`: one past the largest `size_t` value on the 32-bit target. -/
def SIZE_T_MOD : Nat := 2 ^ 32

/-- errno value `EFAULT` (engine returns `-EFAULT` for bad arguments). -/
def EFAULT : Int := 14

/-- errno value `ENOMEM` (engine returns `-ENOMEM` when out of space). -/
def ENOMEM : Int := 12

/-- Result of `flash_get_page_info_by_offs`: the page containing an offset.
`start_offset` is an `off_t` (signed) in C. -/
structure PageInfo where
  start_offset : Int
  size : Nat
deriving DecidableEq, Repr

/-- Abstract flash device: the slice of the flash driver API the engine
consumes.  Each operation is a pure function from its arguments to the
driver's return code (`0` = success, negative = failure); `getPageInfo`
additionally yields the resolved page.  `layout` is the page-layout
enumeration: a list of `(pages_count, pages_size)` regions. -/
structure FlashDevice where
  getPageInfo : Nat → Int × PageInfo
  eraseRc : Int → Nat → Int
  writeRc : Nat → Nat → Int
  readRc : Nat → Nat → Int
  layout : List (Nat × Nat)
  write_block_size : Nat

/-- The engine context, `struct fbw_ctx`.  The staging buffer's bytes are
not tracked (they never influence control flow); `buf_len` is its capacity
and `buf_bytes` its fill.  The verification hook receives, besides the
buffer pointer, its length and the absolute write offset, and returns an
error code; it is modelled as `Option (Nat → Nat → Int)` (length → offset →
rc), `none` standing for a NULL `callback`. -/
structure FbwCtx where
  fdev : FlashDevice
  buf_len : Nat
  bytes_written : Nat
  buf_bytes : Nat
  offset : Nat
  available : Nat
  callback : Option (Nat → Nat → Int)
  last_erased_page_start_offset : Int

/-- One call the engine issued to the flash driver or to the hook. -/
inductive FlashEvent where
  | erase (off : Int) (size : Nat)
  | write (off : Nat) (len : Nat)
  | read (off : Nat) (len : Nat)
  | hook (len : Nat) (off : Nat)
deriving DecidableEq, Repr

/-- The page-erase calls in a trace (offset and size of each erase). -/
def eraseCalls (evs : List FlashEvent) : List (Int × Nat) :=
  evs.filterMap fun e =>
    match e with
    | FlashEvent.erase o s => some (o, s)
    | _ => none

/-- The flash-write calls in a trace (offset and length of each write). -/
def writeCalls (evs : List FlashEvent) : List (Nat × Nat) :=
  evs.filterMap fun e =>
    match e with
    | FlashEvent.write o l => some (o, l)
    | _ => none

/-- The hook invocations in a trace (length and offset arguments). -/
def hookCalls (evs : List FlashEvent) : List (Nat × Nat) :=
  evs.filterMap fun e =>
    match e with
    | FlashEvent.hook l o => some (l, o)
    | _ => none

/-- Function `fbw_erase` (fbw.c lines 21–48): resolve the page containing `off`; if
its start equals the stored bookmark, succeed without erasing; otherwise
record the new page start and issue the page erase, propagating its code. -/
def fbw_erase (ctx : FbwCtx) (off : Nat) : Int × FbwCtx × List FlashEvent :=
  let pr := ctx.fdev.getPageInfo off
  if pr.1 ≠ 0 then (pr.1, ctx, [])
  else
    let page := pr.2
    if ctx.last_erased_page_start_offset = page.start_offset then (0, ctx, [])
    else
      let ctx' := { ctx with last_erased_page_start_offset := page.start_offset }
      (ctx.fdev.eraseRc page.start_offset page.size, ctx',
        [FlashEvent.erase page.start_offset page.size])

/-- Function `flash_sync` (fbw.c lines 52–95): commit the staging buffer at
`offset + bytes_written`.  With the erase policy enabled it first
erase-advances to the page containing `write_addr + buf_bytes`; it then
issues the flash write, and, when a hook is installed, the verification
read-back followed by the hook.  Note the C code does NOT return early when
the hook fails: it falls through to `bytes_written += buf_bytes;
buf_bytes = 0;` and returns the hook's code. -/
def flash_sync (eraseEnabled : Bool) (ctx : FbwCtx) : Int × FbwCtx × List FlashEvent :=
  let write_addr := ctx.offset + ctx.bytes_written
  let eraseStep :=
    if eraseEnabled then fbw_erase ctx (write_addr + ctx.buf_bytes)
    else (0, ctx, [])
  if eraseStep.1 < 0 then (eraseStep.1, eraseStep.2.1, eraseStep.2.2)
  else
    let ctx1 := eraseStep.2.1
    let evs1 := eraseStep.2.2
    let wrc := ctx1.fdev.writeRc write_addr ctx1.buf_bytes
    let evs2 := evs1 ++ [FlashEvent.write write_addr ctx1.buf_bytes]
    if wrc ≠ 0 then (wrc, ctx1, evs2)
    else
      match ctx1.callback with
      | none =>
          (0, { ctx1 with bytes_written := ctx1.bytes_written + ctx1.buf_bytes,
                          buf_bytes := 0 }, evs2)
      | some cb =>
          let rrc := ctx1.fdev.readRc write_addr ctx1.buf_bytes
          let evs3 := evs2 ++ [FlashEvent.read write_addr ctx1.buf_bytes]
          if rrc ≠ 0 then (rrc, ctx1, evs3)
          else
            let crc := cb ctx1.buf_bytes write_addr
            (crc,
             { ctx1 with bytes_written := ctx1.bytes_written + ctx1.buf_bytes,
                         buf_bytes := 0 },
             evs3 ++ [FlashEvent.hook ctx1.buf_bytes write_addr])

/-- The commit-triggering loop of `fbw_write` (fbw.c lines 111–124):
while the remaining input is at least the free space in the staging buffer,
fill the buffer to capacity, commit it, and advance the input cursor.
Returns `(rc, ctx, processed, events)`.  The C loop has no fuel; `fuel` is
a modelling device only — `fbw_write` passes `len + 2`, which is never
exhausted when `buf_len ≥ 1` (each iteration past the first consumes
`buf_len` input bytes; a `buf_len = 0` context makes the C loop diverge). -/
def writeLoop (eraseEnabled : Bool) (fuel : Nat) (ctx : FbwCtx)
    (len processed : Nat) : Int × FbwCtx × Nat × List FlashEvent :=
  match fuel with
  | 0 => (0, ctx, processed, [])
  | Nat.succ fuel' =>
    let buf_empty_bytes := ctx.buf_len - ctx.buf_bytes
    if len - processed ≥ buf_empty_bytes then
      let s := flash_sync eraseEnabled { ctx with buf_bytes := ctx.buf_len }
      if s.1 ≠ 0 then (s.1, s.2.1, processed, s.2.2)
      else
        let rest := writeLoop eraseEnabled fuel' s.2.1 len (processed + buf_empty_bytes)
        (rest.1, rest.2.1, rest.2.2.1, s.2.2 ++ rest.2.2.2)
    else (0, ctx, processed, [])

/-- The capacity check of `fbw_write` (fbw.c line 107):
`ctx->bytes_written + ctx->buf_bytes + len > ctx->available`, computed in
`size_t`, i.e. modulo `2 ^ 32` on this target. -/
def capacityExceeded (ctx : FbwCtx) (len : Nat) : Bool :=
  (ctx.bytes_written + ctx.buf_bytes + len) % SIZE_T_MOD > ctx.available

/-- Function `fbw_write` (fbw.c lines 97–138).  `ctxPresent` / `dataPresent` model
the `!ctx || !data` NULL checks.  After the commit loop, a remainder
strictly smaller than the free space is copied into the staging buffer, and
a final commit is triggered when `flush` is set and the buffer is
non-empty. -/
def fbw_write (eraseEnabled : Bool) (ctxPresent dataPresent : Bool)
    (ctx : FbwCtx) (len : Nat) (flush : Bool) :
    Int × FbwCtx × List FlashEvent :=
  if !ctxPresent || !dataPresent then (-EFAULT, ctx, [])
  else if capacityExceeded ctx len then (-ENOMEM, ctx, [])
  else
    let lp := writeLoop eraseEnabled (len + 2) ctx len 0
    if lp.1 ≠ 0 then (lp.1, lp.2.1, lp.2.2.2)
    else
      let ctx1 := lp.2.1
      let processed := lp.2.2.1
      let ctx2 :=
        if processed < len then
          { ctx1 with buf_bytes := ctx1.buf_bytes + (len - processed) }
        else ctx1
      if flush ∧ 0 < ctx2.buf_bytes then
        let s := flash_sync eraseEnabled ctx2
        (s.1, s.2.1, lp.2.2.2 ++ s.2.2)
      else (0, ctx2, lp.2.2.2)

/-- Function `fbw_bytes_written` (fbw.c lines 140–143): pure observer. -/
def fbw_bytes_written (ctx : FbwCtx) : Nat :=
  ctx.bytes_written

/-- The parameter-validation loop of `fbw_init` (fbw.c lines 157–170): walk
the page layout accumulating `total_size += pages_count * pages_size`
(in `size_t`), failing as soon as a region's page size is smaller than
`buf_len`.  Returns the total device size on success. -/
def layoutScan (buf_len : Nat) : List (Nat × Nat) → Nat → Option Nat
  | [], total => some total
  | r :: rest, total =>
    let total' := (total + r.1 * r.2 % SIZE_T_MOD) % SIZE_T_MOD
    if buf_len > r.2 then none
    else layoutScan buf_len rest total'

/-- Function `fbw_init` (fbw.c lines 145–192).  Validates the references, the page
layout against `buf_len`, the `offset + size` bound (size_t arithmetic) and
the write-block alignment of `offset`, then installs the borrowed
references and zeroes the counters; with the erase policy enabled the
bookmark is set to the `-1` sentinel (with it disabled the field does not
exist in C, so it is left untouched here).  On any failure the context is
returned unmodified, as in C, where no field is assigned before all checks
pass. -/
def fbw_init (eraseEnabled : Bool) (ctxPresent fdevPresent bufPresent : Bool)
    (ctx : FbwCtx) (fdev : FlashDevice) (buf_len offset size : Nat)
    (cb : Option (Nat → Nat → Int)) : Int × FbwCtx :=
  if !ctxPresent || !fdevPresent || !bufPresent then (-EFAULT, ctx)
  else
    match layoutScan buf_len fdev.layout 0 with
    | none => (-EFAULT, ctx)
    | some total_size =>
      if (offset + size) % SIZE_T_MOD > total_size ∨
          offset % fdev.write_block_size ≠ 0 then (-EFAULT, ctx)
      else
        (0, { fdev := fdev
              buf_len := buf_len
              bytes_written := 0
              buf_bytes := 0
              offset := offset
              available := if size = 0 then total_size - offset else size
              callback := cb
              last_erased_page_start_offset :=
                if eraseEnabled then -1 else ctx.last_erased_page_start_offset })

/-- The total device size that `layoutScan` accumulates when every region
passes the `buf_len` check: the `size_t` sum over regions of
`pages_count * pages_size`. -/
def totalSize : List (Nat × Nat) → Nat → Nat
  | [], t => t
  | r :: rest, t => totalSize rest ((t + r.1 * r.2 % SIZE_T_MOD) % SIZE_T_MOD)

/-! ### Concrete devices and contexts used as witnesses and counterexamples -/

/-- A well-behaved 128 KiB flash device: 32 pages of 4096 bytes,
write-block size 1, every driver call succeeding. -/
def okDevice : FlashDevice :=
  { getPageInfo := fun off => (0, ⟨((off / 4096) * 4096 : Nat), 4096⟩)
    eraseRc := fun _ _ => 0
    writeRc := fun _ _ => 0
    readRc := fun _ _ => 0
    layout := [(32, 4096)]
    write_block_size := 1 }

/-- Like `okDevice`, but every flash write fails with driver code `-5`. -/
def failWriteDevice : FlashDevice :=
  { okDevice with writeRc := fun _ _ => -5 }

/-- Like `okDevice`, but every page erase fails with driver code `-9`. -/
def failEraseDevice : FlashDevice :=
  { okDevice with eraseRc := fun _ _ => -9 }

/-- A freshly initialised-looking context on `okDevice`. -/
def freshCtx : FbwCtx :=
  { fdev := okDevice, buf_len := 512, bytes_written := 0, buf_bytes := 0,
    offset := 65536, available := 65536, callback := none,
    last_erased_page_start_offset := -1 }

/-- Context with 3 staged bytes and a verification hook that fails with
`-22`; the flash write and read-back themselves succeed. -/
def hookFailCtx : FbwCtx :=
  { fdev := okDevice, buf_len := 512, bytes_written := 0, buf_bytes := 3,
    offset := 0, available := 100, callback := some (fun _ _ => -22),
    last_erased_page_start_offset := -1 }

/-- Context whose flash writes fail with `-5`. -/
def writeFailCtx : FbwCtx :=
  { fdev := failWriteDevice, buf_len := 512, bytes_written := 5, buf_bytes := 7,
    offset := 0, available := 100, callback := none,
    last_erased_page_start_offset := -1 }

/-- Mid-stream context with a succeeding verification hook installed. -/
def hookOkCtx : FbwCtx :=
  { fdev := okDevice, buf_len := 512, bytes_written := 512, buf_bytes := 256,
    offset := 65536, available := 65536, callback := some (fun _ _ => 0),
    last_erased_page_start_offset := -1 }

/-- Context for the capacity-check wraparound: 1 byte already written,
budget 5, on a device whose writes fail with `-5`. -/
def wrapCheckCtx : FbwCtx :=
  { fdev := failWriteDevice, buf_len := 4, bytes_written := 1, buf_bytes := 0,
    offset := 0, available := 5, callback := none,
    last_erased_page_start_offset := -1 }

/-- Context holding 2 staged bytes in a 4-byte staging buffer. -/
def staged2Ctx : FbwCtx :=
  { fdev := okDevice, buf_len := 4, bytes_written := 0, buf_bytes := 2,
    offset := 0, available := 100, callback := none,
    last_erased_page_start_offset := -1 }

/-- Context whose erase bookmark already points at the page starting at
4096. -/
def bookmarkedCtx : FbwCtx :=
  { fdev := okDevice, buf_len := 512, bytes_written := 0, buf_bytes := 0,
    offset := 0, available := 100, callback := none,
    last_erased_page_start_offset := 4096 }

/-- Context on the invariant boundary: `bytes_written + buf_bytes` equals
`available = 1`, with a 2^31-byte staging buffer. -/
def boundaryCtx : FbwCtx :=
  { fdev := okDevice, buf_len := 2 ^ 31, bytes_written := 1, buf_bytes := 0,
    offset := 0, available := 1, callback := none,
    last_erased_page_start_offset := -1 }

/-- Context on the device whose erases fail. -/
def eraseFailCtx : FbwCtx :=
  { fdev := failEraseDevice, buf_len := 512, bytes_written := 0, buf_bytes := 0,
    offset := 0, available := 100, callback := none,
    last_erased_page_start_offset := -1 }

/-! ### Helper lemmas about single operations -/

/-- Function `fbw_erase` touches only the erase bookmark: every counter and borrowed
reference is preserved, and it issues no write, read, or hook call. -/
theorem fbw_erase_state (ctx : FbwCtx) (off : Nat) :
    (fbw_erase ctx off).2.1.bytes_written = ctx.bytes_written ∧
    (fbw_erase ctx off).2.1.buf_bytes = ctx.buf_bytes ∧
    (fbw_erase ctx off).2.1.buf_len = ctx.buf_len ∧
    (fbw_erase ctx off).2.1.offset = ctx.offset ∧
    (fbw_erase ctx off).2.1.available = ctx.available ∧
    (fbw_erase ctx off).2.1.fdev = ctx.fdev ∧
    (fbw_erase ctx off).2.1.callback = ctx.callback ∧
    writeCalls (fbw_erase ctx off).2.2 = [] ∧
    hookCalls (fbw_erase ctx off).2.2 = [] := by
  by_cases h1 : (ctx.fdev.getPageInfo off).1 ≠ 0 <;>
  by_cases h2 : ctx.last_erased_page_start_offset
      = (ctx.fdev.getPageInfo off).2.start_offset <;>
  simp [fbw_erase, h1, h2, writeCalls, hookCalls]

@[simp]
theorem eraseCalls_append (a b : List FlashEvent) :
    eraseCalls (a ++ b) = eraseCalls a ++ eraseCalls b := by
  simp [eraseCalls]

@[simp]
theorem writeCalls_append (a b : List FlashEvent) :
    writeCalls (a ++ b) = writeCalls a ++ writeCalls b := by
  simp [writeCalls]

@[simp]
theorem hookCalls_append (a b : List FlashEvent) :
    hookCalls (a ++ b) = hookCalls a ++ hookCalls b := by
  simp [hookCalls]

/-- Function `flash_sync` preserves the borrowed references, the buffer capacity, the
base offset and the budget, and it always preserves the sum
`bytes_written + buf_bytes`: either the commit did not advance (failure
before the final update) or `buf_bytes` moved into `bytes_written`. -/
theorem flash_sync_state (e : Bool) (ctx : FbwCtx) :
    (flash_sync e ctx).2.1.buf_len = ctx.buf_len ∧
    (flash_sync e ctx).2.1.offset = ctx.offset ∧
    (flash_sync e ctx).2.1.available = ctx.available ∧
    (flash_sync e ctx).2.1.fdev = ctx.fdev ∧
    (flash_sync e ctx).2.1.callback = ctx.callback ∧
    (flash_sync e ctx).2.1.bytes_written + (flash_sync e ctx).2.1.buf_bytes
      = ctx.bytes_written + ctx.buf_bytes ∧
    (flash_sync e ctx).2.1.buf_bytes ≤ ctx.buf_bytes := by
  rcases h : (if e then
      fbw_erase ctx (ctx.offset + ctx.bytes_written + ctx.buf_bytes)
    else (0, ctx, [])) with ⟨rc0, ctx1, evs1⟩
  have hf : ctx1.bytes_written = ctx.bytes_written ∧
      ctx1.buf_bytes = ctx.buf_bytes ∧ ctx1.buf_len = ctx.buf_len ∧
      ctx1.offset = ctx.offset ∧ ctx1.available = ctx.available ∧
      ctx1.fdev = ctx.fdev ∧ ctx1.callback = ctx.callback := by
    cases e with
    | false =>
      simp only [Bool.false_eq_true, if_false, Prod.mk.injEq] at h
      rcases h with ⟨-, h2, -⟩
      rw [← h2]
      exact ⟨rfl, rfl, rfl, rfl, rfl, rfl, rfl⟩
    | true =>
      simp only [if_true] at h
      have := fbw_erase_state ctx (ctx.offset + ctx.bytes_written + ctx.buf_bytes)
      rw [h] at this
      exact ⟨this.1, this.2.1, this.2.2.1, this.2.2.2.1, this.2.2.2.2.1,
        this.2.2.2.2.2.1, this.2.2.2.2.2.2.1⟩
  obtain ⟨h1, h2, h3, h4, h5, h6, h7⟩ := hf
  simp only [flash_sync, h]
  by_cases hrc : rc0 < 0
  · simp only [if_pos hrc]
    exact ⟨h3, h4, h5, h6, h7, by omega, by omega⟩
  · simp only [if_neg hrc]
    by_cases hw : ctx1.fdev.writeRc (ctx.offset + ctx.bytes_written) ctx1.buf_bytes ≠ 0
    · simp only [if_pos hw]
      exact ⟨h3, h4, h5, h6, h7, by omega, by omega⟩
    · simp only [if_neg hw]
      rcases hc : ctx1.callback with _ | cb
      · simp only [hc]
        exact ⟨h3, h4, h5, h6, by rw [← hc]; exact h7, by omega, by omega⟩
      · simp only [hc]
        by_cases hr : ctx1.fdev.readRc (ctx.offset + ctx.bytes_written) ctx1.buf_bytes ≠ 0
        · simp only [if_pos hr]
          exact ⟨h3, h4, h5, h6, h7, by omega, by omega⟩
        · simp only [if_neg hr]
          exact ⟨h3, h4, h5, h6, by rw [← hc]; exact h7, by omega, by omega⟩

/-- A `flash_sync` that returns `0` went through the final counter update:
the staging buffer is empty, `bytes_written` advanced by exactly the
commit size, and exactly one flash write was issued, at
`offset + bytes_written_before`, of exactly `buf_bytes_before` bytes. -/
theorem flash_sync_success (e : Bool) (ctx : FbwCtx)
    (h0 : (flash_sync e ctx).1 = 0) :
    (flash_sync e ctx).2.1.buf_bytes = 0 ∧
    (flash_sync e ctx).2.1.bytes_written = ctx.bytes_written + ctx.buf_bytes ∧
    writeCalls (flash_sync e ctx).2.2
      = [(ctx.offset + ctx.bytes_written, ctx.buf_bytes)] := by
  rcases h : (if e then
      fbw_erase ctx (ctx.offset + ctx.bytes_written + ctx.buf_bytes)
    else (0, ctx, [])) with ⟨rc0, ctx1, evs1⟩
  have hf : ctx1.bytes_written = ctx.bytes_written ∧
      ctx1.buf_bytes = ctx.buf_bytes ∧ ctx1.callback = ctx.callback ∧
      writeCalls evs1 = [] := by
    cases e with
    | false =>
      simp only [Bool.false_eq_true, if_false, Prod.mk.injEq] at h
      rcases h with ⟨-, h2, h3⟩
      rw [← h2, ← h3]
      exact ⟨rfl, rfl, rfl, by simp [writeCalls]⟩
    | true =>
      simp only [if_true] at h
      have := fbw_erase_state ctx (ctx.offset + ctx.bytes_written + ctx.buf_bytes)
      rw [h] at this
      exact ⟨this.1, this.2.1, this.2.2.2.2.2.2.1, this.2.2.2.2.2.2.2.1⟩
  obtain ⟨h1, h2, h7, hW⟩ := hf
  simp only [flash_sync, h] at h0 ⊢
  by_cases hrc : rc0 < 0
  · simp only [if_pos hrc] at h0
    exact absurd h0 (by omega)
  · simp only [if_neg hrc] at h0 ⊢
    by_cases hw : ctx1.fdev.writeRc (ctx.offset + ctx.bytes_written) ctx1.buf_bytes ≠ 0
    · simp only [if_pos hw] at h0
      exact absurd h0 hw
    · simp only [if_neg hw] at h0 ⊢
      rcases hc : ctx1.callback with _ | cb
      · simp only [hc] at h0 ⊢
        refine ⟨by simp, by omega, ?_⟩
        simp only [writeCalls_append, hW]
        simp [writeCalls, h2]
      · simp only [hc] at h0 ⊢
        by_cases hr : ctx1.fdev.readRc (ctx.offset + ctx.bytes_written) ctx1.buf_bytes ≠ 0
        · simp only [if_pos hr] at h0
          exact absurd h0 hr
        · simp only [if_neg hr] at h0 ⊢
          refine ⟨by simp, by omega, ?_⟩
          simp only [writeCalls_append, hW]
          simp [writeCalls, h2]

/-- Projections of the buffer-fill update used by the commit loop. -/
theorem fillBuf_fields (c : FbwCtx) (n : Nat) :
    ({ c with buf_bytes := n } : FbwCtx).buf_len = c.buf_len ∧
    ({ c with buf_bytes := n } : FbwCtx).bytes_written = c.bytes_written ∧
    ({ c with buf_bytes := n } : FbwCtx).buf_bytes = n ∧
    ({ c with buf_bytes := n } : FbwCtx).offset = c.offset ∧
    ({ c with buf_bytes := n } : FbwCtx).available = c.available ∧
    ({ c with buf_bytes := n } : FbwCtx).fdev = c.fdev ∧
    ({ c with buf_bytes := n } : FbwCtx).callback = c.callback :=
  ⟨rfl, rfl, rfl, rfl, rfl, rfl, rfl⟩

/-- Pair projections, stated as rewrite rules for tuple-valued results. -/
theorem prodFst {A B : Type} (a : A) (b : B) : (a, b).1 = a := rfl

/-- Second pair projection, as a rewrite rule. -/
theorem prodSnd {A B : Type} (a : A) (b : B) : (a, b).2 = b := rfl

/-- Invariants of the commit-triggering loop, by induction on the fuel:
the loop never touches the buffer capacity, base offset, budget, device or
hook; the buffer fill stays within capacity; the input cursor only advances
and never passes `len`; the sum `bytes_written + buf_bytes` grows by at
most the input consumed; and on success it grows by exactly the input
consumed (each successful commit moves `buf_len - buf_bytes_entry` fresh
input bytes in, and every byte of `buf_bytes` moved to `bytes_written`). -/
theorem writeLoop_state (e : Bool) :
    ∀ (fuel : Nat) (ctx : FbwCtx) (len p : Nat),
      ctx.buf_bytes ≤ ctx.buf_len → p ≤ len →
      (writeLoop e fuel ctx len p).2.1.buf_len = ctx.buf_len ∧
      (writeLoop e fuel ctx len p).2.1.offset = ctx.offset ∧
      (writeLoop e fuel ctx len p).2.1.available = ctx.available ∧
      (writeLoop e fuel ctx len p).2.1.fdev = ctx.fdev ∧
      (writeLoop e fuel ctx len p).2.1.callback = ctx.callback ∧
      (writeLoop e fuel ctx len p).2.1.buf_bytes ≤ ctx.buf_len ∧
      p ≤ (writeLoop e fuel ctx len p).2.2.1 ∧
      (writeLoop e fuel ctx len p).2.2.1 ≤ len ∧
      (writeLoop e fuel ctx len p).2.1.bytes_written
          + (writeLoop e fuel ctx len p).2.1.buf_bytes
        ≤ ctx.bytes_written + ctx.buf_bytes + (len - p) ∧
      ((writeLoop e fuel ctx len p).1 = 0 →
        (writeLoop e fuel ctx len p).2.1.bytes_written
            + (writeLoop e fuel ctx len p).2.1.buf_bytes + p
          = ctx.bytes_written + ctx.buf_bytes + (writeLoop e fuel ctx len p).2.2.1) := by
  intro fuel
  induction fuel with
  | zero =>
    intro ctx len p hbb hpl
    exact ⟨rfl, rfl, rfl, rfl, rfl, hbb, le_refl _, hpl,
      Nat.le_add_right _ _, fun _ => rfl⟩
  | succ f ih =>
    intro ctx len p hbb hpl
    simp only [writeLoop]
    by_cases hg : len - p ≥ ctx.buf_len - ctx.buf_bytes
    · simp only [if_pos hg]
      generalize hS : flash_sync e { ctx with buf_bytes := ctx.buf_len } = s
      have hst := flash_sync_state e { ctx with buf_bytes := ctx.buf_len }
      rw [hS] at hst
      obtain ⟨g1, g2, g3, g4, g5, g6, g7⟩ := fillBuf_fields ctx ctx.buf_len
      rw [g1, g2, g3, g4, g5, g6, g7] at hst
      obtain ⟨s1, s2, s3, s4, s5, s6, s7⟩ := hst
      by_cases hsrc : s.1 ≠ 0
      · simp only [if_pos hsrc, prodFst, prodSnd]
        exact ⟨s1, s2, s3, s4, s5, by omega, le_refl _, hpl, by omega,
          fun h => absurd h hsrc⟩
      · simp only [if_neg hsrc, prodFst, prodSnd]
        have hs0 : s.1 = 0 := not_not.mp hsrc
        have hsucc := flash_sync_success e { ctx with buf_bytes := ctx.buf_len }
          (by rw [hS]; exact hs0)
        rw [hS] at hsucc
        rw [g2, g3, g4] at hsucc
        obtain ⟨u1, u2, u3⟩ := hsucc
        have hbb2 : s.2.1.buf_bytes ≤ s.2.1.buf_len := by omega
        have hpl2 : p + (ctx.buf_len - ctx.buf_bytes) ≤ len := by omega
        obtain ⟨i1, i2, i3, i4, i5, i6, i7, i8, i9, i10⟩ :=
          ih s.2.1 len (p + (ctx.buf_len - ctx.buf_bytes)) hbb2 hpl2
        refine ⟨by rw [i1, s1], by rw [i2, s2], by rw [i3, s3], by rw [i4, s4],
          by rw [i5, s5], by omega, by omega, i8, by omega, fun h0 => ?_⟩
        have := i10 h0
        omega
    · simp only [if_neg hg, prodFst, prodSnd]
      refine ⟨?_, ?_, ?_, ?_, ?_, ?_, ?_, ?_, ?_, ?_⟩ <;>
        first
          | trivial
          | omega

/-- When the loop starts with an empty staging buffer and exactly
`k * buf_len` input bytes remain, a successful run performs exactly `k`
flash writes, consumes the whole input, and leaves the buffer empty.
`k + 1 ≤ fuel` certifies that the modelling fuel is not the reason the
loop stopped. -/
theorem writeLoop_exact_multiple (e : Bool) :
    ∀ (k fuel : Nat) (ctx : FbwCtx) (len p : Nat),
      ctx.buf_bytes = 0 → 1 ≤ ctx.buf_len → len = p + k * ctx.buf_len →
      k + 1 ≤ fuel →
      (writeLoop e fuel ctx len p).1 = 0 →
      (writeLoop e fuel ctx len p).2.2.1 = len ∧
      (writeLoop e fuel ctx len p).2.1.buf_bytes = 0 ∧
      (writeCalls (writeLoop e fuel ctx len p).2.2.2).length = k := by
  intro k
  induction k with
  | zero =>
    intro fuel ctx len p hbb0 hbl hlen hfuel h0
    cases fuel with
    | zero => omega
    | succ f =>
      have hg : ¬(len - p ≥ ctx.buf_len - ctx.buf_bytes) := by omega
      simp only [writeLoop, if_neg hg, prodFst, prodSnd]
      exact ⟨by omega, hbb0, by simp [writeCalls]⟩
  | succ k ih =>
    intro fuel ctx len p hbb0 hbl hlen hfuel h0
    cases fuel with
    | zero => omega
    | succ f =>
      have hsm : (k + 1) * ctx.buf_len = k * ctx.buf_len + ctx.buf_len :=
        Nat.succ_mul _ _
      rw [hsm] at hlen
      have hg : len - p ≥ ctx.buf_len - ctx.buf_bytes := by omega
      revert h0
      simp only [writeLoop, if_pos hg]
      generalize hS : flash_sync e { ctx with buf_bytes := ctx.buf_len } = s
      intro h0
      have hst := flash_sync_state e { ctx with buf_bytes := ctx.buf_len }
      rw [hS] at hst
      obtain ⟨g1, g2, g3, g4, g5, g6, g7⟩ := fillBuf_fields ctx ctx.buf_len
      rw [g1, g2, g3, g4, g5, g6, g7] at hst
      obtain ⟨s1, s2, s3, s4, s5, s6, s7⟩ := hst
      by_cases hsrc : s.1 ≠ 0
      · simp only [if_pos hsrc, prodFst, prodSnd] at h0
        exact absurd h0 hsrc
      · simp only [if_neg hsrc, prodFst, prodSnd] at h0 ⊢
        have hs0 : s.1 = 0 := not_not.mp hsrc
        have hsucc := flash_sync_success e { ctx with buf_bytes := ctx.buf_len }
          (by rw [hS]; exact hs0)
        rw [hS] at hsucc
        rw [g2, g3, g4] at hsucc
        obtain ⟨u1, u2, u3⟩ := hsucc
        have hbl2 : 1 ≤ s.2.1.buf_len := by omega
        have hlen2 : len = (p + (ctx.buf_len - ctx.buf_bytes)) + k * s.2.1.buf_len := by
          rw [s1]
          omega
        have hfuel2 : k + 1 ≤ f := by omega
        obtain ⟨j1, j2, j3⟩ :=
          ih f s.2.1 len (p + (ctx.buf_len - ctx.buf_bytes)) u1 hbl2 hlen2 hfuel2 h0
        refine ⟨j1, j2, ?_⟩
        rw [writeCalls_append, u3]
        simp [j3]

/-- Scanning fails exactly when some region's page size is below
`buf_len`: failure direction. -/
theorem layoutScan_none (bl : Nat) :
    ∀ (l : List (Nat × Nat)) (t : Nat), (∃ r ∈ l, r.2 < bl) →
      layoutScan bl l t = none := by
  intro l
  induction l with
  | nil =>
    intro t h
    rcases h with ⟨r, hr, -⟩
    cases hr
  | cons a rest ih =>
    intro t h
    by_cases ha : bl > a.2
    · simp [layoutScan, ha]
    · simp only [layoutScan, if_neg ha]
      apply ih
      rcases h with ⟨r, hr, hlt⟩
      rcases List.mem_cons.mp hr with h1 | h2
      · subst h1
        exact absurd hlt (by omega)
      · exact ⟨r, h2, hlt⟩

/-- Scanning succeeds, returning the accumulated total size, when every
region's page size is at least `buf_len`. -/
theorem layoutScan_fits (bl : Nat) :
    ∀ (l : List (Nat × Nat)) (t : Nat), (∀ r ∈ l, bl ≤ r.2) →
      layoutScan bl l t = some (totalSize l t) := by
  intro l
  induction l with
  | nil =>
    intro t _
    simp [layoutScan, totalSize]
  | cons a rest ih =>
    intro t h
    have ha : ¬bl > a.2 := by
      have := h a (List.mem_cons_self a rest)
      omega
    simp only [layoutScan, totalSize, if_neg ha]
    exact ih _ (fun r hr => h r (List.mem_cons_of_mem a hr))

/-! ### Claim theorems -/

/-- C1 (counterexample): the claim "after a failed commit `bytes_written`
and `buf_bytes` equal their pre-commit values" is false for a hook failure:
a flush whose verification hook returns `-22` propagates the error, yet
`bytes_written` advances from 0 to 3. -/
theorem C1_counterexample :
    (fbw_write false true true hookFailCtx 0 true).1 ≠ 0 ∧
    (fbw_write false true true hookFailCtx 0 true).2.1.bytes_written
      ≠ hookFailCtx.bytes_written := by
  decide

/-- C1 (amended): every failing commit either leaves `bytes_written` and
`buf_bytes` at their pre-commit values (erase, flash-write, and read-back
failures), or it is a hook failure, in which case the hook's error is
returned but `bytes_written` has advanced by the commit size and
`buf_bytes` has been reset to 0. -/
theorem C1_commit_failure_state (e : Bool) (ctx : FbwCtx)
    (h : (flash_sync e ctx).1 ≠ 0) :
    ((flash_sync e ctx).2.1.bytes_written = ctx.bytes_written ∧
      (flash_sync e ctx).2.1.buf_bytes = ctx.buf_bytes) ∨
    (∃ cb, ctx.callback = some cb ∧
      (flash_sync e ctx).1 = cb ctx.buf_bytes (ctx.offset + ctx.bytes_written) ∧
      (flash_sync e ctx).2.1.bytes_written = ctx.bytes_written + ctx.buf_bytes ∧
      (flash_sync e ctx).2.1.buf_bytes = 0) := by
  revert h
  rcases hE : (if e then
      fbw_erase ctx (ctx.offset + ctx.bytes_written + ctx.buf_bytes)
    else (0, ctx, [])) with ⟨rc0, ctx1, evs1⟩
  have hf : ctx1.bytes_written = ctx.bytes_written ∧
      ctx1.buf_bytes = ctx.buf_bytes ∧ ctx1.callback = ctx.callback := by
    cases e with
    | false =>
      simp only [Bool.false_eq_true, if_false, Prod.mk.injEq] at hE
      rcases hE with ⟨-, h2, -⟩
      rw [← h2]
      exact ⟨rfl, rfl, rfl⟩
    | true =>
      simp only [if_true] at hE
      have := fbw_erase_state ctx (ctx.offset + ctx.bytes_written + ctx.buf_bytes)
      rw [hE] at this
      exact ⟨this.1, this.2.1, this.2.2.2.2.2.2.1⟩
  obtain ⟨h1, h2, h7⟩ := hf
  simp only [flash_sync, hE]
  by_cases hrc : rc0 < 0
  · simp only [if_pos hrc]
    intro _
    exact Or.inl ⟨h1, h2⟩
  · simp only [if_neg hrc]
    by_cases hw : ctx1.fdev.writeRc (ctx.offset + ctx.bytes_written) ctx1.buf_bytes ≠ 0
    · simp only [if_pos hw]
      intro _
      exact Or.inl ⟨h1, h2⟩
    · simp only [if_neg hw]
      rcases hc : ctx1.callback with _ | cb
      · simp only [hc]
        intro h
        exact absurd rfl h
      · simp only [hc]
        by_cases hr : ctx1.fdev.readRc (ctx.offset + ctx.bytes_written) ctx1.buf_bytes ≠ 0
        · simp only [if_pos hr]
          intro _
          exact Or.inl ⟨h1, h2⟩
        · simp only [if_neg hr]
          intro _
          refine Or.inr ⟨cb, by rw [← h7]; exact hc, by rw [h2], by omega, by simp⟩

/-- C1 (witness): the amended theorem applied to a concrete failing commit
(flash write fails with `-5`): counters are untouched. -/
theorem C1_witness :
    (flash_sync false writeFailCtx).1 ≠ 0 ∧
    (((flash_sync false writeFailCtx).2.1.bytes_written
        = writeFailCtx.bytes_written ∧
      (flash_sync false writeFailCtx).2.1.buf_bytes = writeFailCtx.buf_bytes) ∨
     (∃ cb, writeFailCtx.callback = some cb ∧
       (flash_sync false writeFailCtx).1
         = cb writeFailCtx.buf_bytes
             (writeFailCtx.offset + writeFailCtx.bytes_written) ∧
       (flash_sync false writeFailCtx).2.1.bytes_written
         = writeFailCtx.bytes_written + writeFailCtx.buf_bytes ∧
       (flash_sync false writeFailCtx).2.1.buf_bytes = 0)) :=
  ⟨by decide, C1_commit_failure_state false writeFailCtx (by decide)⟩

/-- C2: every successful commit with a verification hook installed invokes
the hook exactly once, with length equal to the commit size (the
`buf_bytes` being committed) and offset `base_offset + bytes_written` as
they were when the commit began; `bytes_written` then advances by exactly
that length. -/
theorem C2_hook_fidelity (e : Bool) (ctx : FbwCtx) (cb : Nat → Nat → Int)
    (hcb : ctx.callback = some cb)
    (h0 : (flash_sync e ctx).1 = 0) :
    hookCalls (flash_sync e ctx).2.2
      = [(ctx.buf_bytes, ctx.offset + ctx.bytes_written)] ∧
    (flash_sync e ctx).2.1.bytes_written
      = ctx.bytes_written + ctx.buf_bytes := by
  revert h0
  rcases hE : (if e then
      fbw_erase ctx (ctx.offset + ctx.bytes_written + ctx.buf_bytes)
    else (0, ctx, [])) with ⟨rc0, ctx1, evs1⟩
  have hf : ctx1.bytes_written = ctx.bytes_written ∧
      ctx1.buf_bytes = ctx.buf_bytes ∧ ctx1.callback = ctx.callback ∧
      hookCalls evs1 = [] := by
    cases e with
    | false =>
      simp only [Bool.false_eq_true, if_false, Prod.mk.injEq] at hE
      rcases hE with ⟨-, h2, h3⟩
      rw [← h2, ← h3]
      exact ⟨rfl, rfl, rfl, by simp [hookCalls]⟩
    | true =>
      simp only [if_true] at hE
      have := fbw_erase_state ctx (ctx.offset + ctx.bytes_written + ctx.buf_bytes)
      rw [hE] at this
      exact ⟨this.1, this.2.1, this.2.2.2.2.2.2.1, this.2.2.2.2.2.2.2.2⟩
  obtain ⟨h1, h2, h7, hH⟩ := hf
  simp only [flash_sync, hE]
  by_cases hrc : rc0 < 0
  · simp only [if_pos hrc]
    intro h0
    exact absurd h0 (by omega)
  · simp only [if_neg hrc]
    by_cases hw : ctx1.fdev.writeRc (ctx.offset + ctx.bytes_written) ctx1.buf_bytes ≠ 0
    · simp only [if_pos hw]
      intro h0
      exact absurd h0 hw
    · simp only [if_neg hw]
      rcases hc : ctx1.callback with _ | cb'
      · rw [h7, hcb] at hc
        cases hc
      · simp only [hc]
        by_cases hr : ctx1.fdev.readRc (ctx.offset + ctx.bytes_written) ctx1.buf_bytes ≠ 0
        · simp only [if_pos hr]
          intro h0
          exact absurd h0 hr
        · simp only [if_neg hr]
          intro _
          constructor
          · simp only [hookCalls_append, hH]
            simp [hookCalls, h2]
          · omega

/-- C2 (witness): the hook-fidelity theorem at a concrete mid-stream
commit: one hook call with length 256 at offset 65536 + 512. -/
theorem C2_witness :
    (flash_sync false hookOkCtx).1 = 0 ∧
    hookCalls (flash_sync false hookOkCtx).2.2
      = [(hookOkCtx.buf_bytes, hookOkCtx.offset + hookOkCtx.bytes_written)] ∧
    (flash_sync false hookOkCtx).2.1.bytes_written
      = hookOkCtx.bytes_written + hookOkCtx.buf_bytes :=
  ⟨by decide,
   (C2_hook_fidelity false hookOkCtx (fun _ _ => 0) rfl (by decide)).1,
   (C2_hook_fidelity false hookOkCtx (fun _ _ => 0) rfl (by decide)).2⟩

/-- C3 (counterexample): the capacity check is `size_t` arithmetic, so it
can falsely pass.  With 1 byte written, budget 5 and
`len = 2 ^ 32 - 1`, the exact sum `1 + 0 + (2^32 - 1) = 2^32` exceeds the
budget, yet the call does not fail with `-ENOMEM`: the wrapped sum is 0,
the check passes, and the call reaches the flash driver (which here
fails with `-5`). -/
theorem C3_counterexample :
    wrapCheckCtx.bytes_written + wrapCheckCtx.buf_bytes + (2 ^ 32 - 1)
      > wrapCheckCtx.available ∧
    (fbw_write false true true wrapCheckCtx (2 ^ 32 - 1) false).1
      ≠ -ENOMEM := by
  decide

/-- C3 (amended): the capacity check compares
`(bytes_written + buf_bytes + len) mod 2^32` with `available`.  Whenever
the exact sum stays below `2^32` the check is exact: it trips precisely
when the exact sum exceeds `available`, and a tripped check makes the call
return `-ENOMEM` with the context untouched and no driver call issued. -/
theorem C3_capacity_check (e : Bool) (ctx : FbwCtx) (len : Nat) (flush : Bool)
    (hnw : ctx.bytes_written + ctx.buf_bytes + len < SIZE_T_MOD) :
    (capacityExceeded ctx len = true ↔
      ctx.bytes_written + ctx.buf_bytes + len > ctx.available) ∧
    (capacityExceeded ctx len = true →
      fbw_write e true true ctx len flush = (-ENOMEM, ctx, [])) := by
  constructor
  · unfold capacityExceeded
    rw [Nat.mod_eq_of_lt hnw]
    exact decide_eq_true_iff
  · intro hcap
    simp only [fbw_write, Bool.not_true, Bool.or_self, Bool.false_eq_true,
      if_false, hcap, if_true]

/-- C3 (witness): the amended theorem at a concrete over-budget call:
writing 600 bytes into `freshCtx` (budget 65536) with 65000 already
written is refused with `-ENOMEM`. -/
theorem C3_witness :
    ({ freshCtx with bytes_written := 65000 } : FbwCtx).bytes_written
        + ({ freshCtx with bytes_written := 65000 } : FbwCtx).buf_bytes + 600
      < SIZE_T_MOD ∧
    (capacityExceeded { freshCtx with bytes_written := 65000 } 600 = true ↔
      ({ freshCtx with bytes_written := 65000 } : FbwCtx).bytes_written
          + ({ freshCtx with bytes_written := 65000 } : FbwCtx).buf_bytes + 600
        > ({ freshCtx with bytes_written := 65000 } : FbwCtx).available) ∧
    fbw_write false true true { freshCtx with bytes_written := 65000 } 600 false
      = (-ENOMEM, { freshCtx with bytes_written := 65000 }, []) :=
  ⟨by decide,
   (C3_capacity_check false { freshCtx with bytes_written := 65000 } 600 false
      (by decide)).1,
   (C3_capacity_check false { freshCtx with bytes_written := 65000 } 600 false
      (by decide)).2 (by decide)⟩

/-- C4: with all references present, `fbw_init` fails with `-EFAULT` as
soon as some page-layout region's page size is strictly smaller than
`buf_len`; and it succeeds when `buf_len` fits every region, the
(`size_t`) `offset + size` bound holds and `offset` is write-block
aligned. -/
theorem C4_init_page_size (e : Bool) (ctx : FbwCtx) (fdev : FlashDevice)
    (buf_len offset size : Nat) (cb : Option (Nat → Nat → Int)) :
    ((∃ r ∈ fdev.layout, r.2 < buf_len) →
      (fbw_init e true true true ctx fdev buf_len offset size cb).1
        = -EFAULT) ∧
    ((∀ r ∈ fdev.layout, buf_len ≤ r.2) →
      (offset + size) % SIZE_T_MOD ≤ totalSize fdev.layout 0 →
      offset % fdev.write_block_size = 0 →
      (fbw_init e true true true ctx fdev buf_len offset size cb).1 = 0) := by
  constructor
  · intro hex
    have hscan := layoutScan_none buf_len fdev.layout 0 hex
    simp [fbw_init, hscan]
  · intro hall hbound halign
    have hscan := layoutScan_fits buf_len fdev.layout 0 hall
    have hchk : ¬((offset + size) % SIZE_T_MOD > totalSize fdev.layout 0 ∨
        offset % fdev.write_block_size ≠ 0) := by
      push_neg
      exact ⟨by omega, halign⟩
    simp [fbw_init, hscan, hchk]

/-- C4 (witness): on `okDevice` (pages of 4096), `buf_len = 0x10000` is
refused with `-EFAULT`, while `buf_len = 512` at offset 65536 with
`size = 0` succeeds. -/
theorem C4_witness :
    (fbw_init false true true true staged2Ctx okDevice 65536 0 0 none).1
      = -EFAULT ∧
    (fbw_init false true true true staged2Ctx okDevice 512 65536 0 none).1
      = 0 :=
  ⟨(C4_init_page_size false staged2Ctx okDevice 65536 0 0 none).1
     (by decide),
   (C4_init_page_size false staged2Ctx okDevice 512 65536 0 none).2
     (by decide) (by decide) (by decide)⟩

/-- C5: a successful `fbw_write` conserves bytes: afterwards
`bytes_written + buf_bytes` equals its pre-call value plus `len`, across
however many commits the call triggered.  (The hypothesis
`buf_bytes ≤ buf_len` is the spec's bounded-occupancy field invariant,
which holds in every reachable state.) -/
theorem C5_write_conservation (e : Bool) (ctx : FbwCtx) (len : Nat)
    (flush : Bool) (hbb : ctx.buf_bytes ≤ ctx.buf_len)
    (h0 : (fbw_write e true true ctx len flush).1 = 0) :
    (fbw_write e true true ctx len flush).2.1.bytes_written
      + (fbw_write e true true ctx len flush).2.1.buf_bytes
      = ctx.bytes_written + ctx.buf_bytes + len := by
  by_cases hcap : capacityExceeded ctx len = true
  · simp only [fbw_write, Bool.not_true, Bool.or_self, Bool.false_eq_true,
      if_false, hcap, if_true, prodFst, prodSnd] at h0
    exact absurd h0 (by decide)
  · revert h0
    simp only [fbw_write, Bool.not_true, Bool.or_self, Bool.false_eq_true,
      if_false, hcap]
    generalize hL : writeLoop e (len + 2) ctx len 0 = lp
    intro h0
    have hloop := writeLoop_state e (len + 2) ctx len 0 hbb (Nat.zero_le _)
    rw [hL] at hloop
    obtain ⟨l1, l2, l3, l4, l5, l6, l7, l8, l9, l10⟩ := hloop
    by_cases hlp : lp.1 ≠ 0
    · simp only [if_pos hlp, prodFst, prodSnd] at h0
      exact absurd h0 hlp
    · simp only [if_neg hlp, prodFst, prodSnd] at h0 ⊢
      have hl0 := l10 (not_not.mp hlp)
      by_cases ht : lp.2.2.1 < len
      · simp only [if_pos ht] at h0 ⊢
        by_cases hf : flush = true ∧
            0 < ({ lp.2.1 with
                buf_bytes := lp.2.1.buf_bytes + (len - lp.2.2.1) } : FbwCtx).buf_bytes
        · revert h0
          simp only [if_pos hf, prodFst, prodSnd]
          generalize hS : flash_sync e
            { lp.2.1 with buf_bytes := lp.2.1.buf_bytes + (len - lp.2.2.1) } = s2
          intro h0
          have hst := flash_sync_state e
            { lp.2.1 with buf_bytes := lp.2.1.buf_bytes + (len - lp.2.2.1) }
          rw [hS] at hst
          obtain ⟨g1, g2, g3, g4, g5, g6, g7⟩ :=
            fillBuf_fields lp.2.1 (lp.2.1.buf_bytes + (len - lp.2.2.1))
          rw [g2, g3] at hst
          omega
        · simp only [if_neg hf, prodFst, prodSnd]
          omega
      · simp only [if_neg ht] at h0 ⊢
        by_cases hf : flush = true ∧ 0 < lp.2.1.buf_bytes
        · revert h0
          simp only [if_pos hf, prodFst, prodSnd]
          generalize hS : flash_sync e lp.2.1 = s2
          intro h0
          have hst := flash_sync_state e lp.2.1
          rw [hS] at hst
          omega
        · simp only [if_neg hf, prodFst, prodSnd]
          omega

/-- C5 (witness): conservation at a concrete call: 700 bytes written into
`freshCtx` with flush; afterwards `bytes_written + buf_bytes = 700`. -/
theorem C5_witness :
    freshCtx.buf_bytes ≤ freshCtx.buf_len ∧
    (fbw_write false true true freshCtx 700 true).1 = 0 ∧
    (fbw_write false true true freshCtx 700 true).2.1.bytes_written
      + (fbw_write false true true freshCtx 700 true).2.1.buf_bytes
      = freshCtx.bytes_written + freshCtx.buf_bytes + 700 :=
  ⟨by decide, by decide,
   C5_write_conservation false freshCtx 700 true (by decide) (by decide)⟩

/-- C6 (counterexample): with 2 bytes already staged in a 4-byte buffer, a
successful write of `len = 1 * buf_len = 4` (no flush) does NOT leave
`buf_bytes = 0`: the 2 tail bytes stay in the staging buffer. -/
theorem C6_counterexample :
    (fbw_write false true true staged2Ctx (1 * staged2Ctx.buf_len) false).1
      = 0 ∧
    (fbw_write false true true staged2Ctx
      (1 * staged2Ctx.buf_len) false).2.1.buf_bytes ≠ 0 := by
  decide

/-- C6 (amended): when the staging buffer is empty before the call, a
successful `fbw_write` of `len = k * buf_len` (no flush) issues exactly
`k` flash writes (commits) and leaves `buf_bytes = 0`. -/
theorem C6_exact_multiple (e : Bool) (ctx : FbwCtx) (k : Nat)
    (hbb : ctx.buf_bytes = 0) (hbl : 1 ≤ ctx.buf_len) (_hk : 1 ≤ k)
    (h0 : (fbw_write e true true ctx (k * ctx.buf_len) false).1 = 0) :
    (writeCalls
      (fbw_write e true true ctx (k * ctx.buf_len) false).2.2).length = k ∧
    (fbw_write e true true ctx (k * ctx.buf_len) false).2.1.buf_bytes
      = 0 := by
  by_cases hcap : capacityExceeded ctx (k * ctx.buf_len) = true
  · simp only [fbw_write, Bool.not_true, Bool.or_self, Bool.false_eq_true,
      if_false, hcap, if_true, prodFst, prodSnd] at h0
    exact absurd h0 (by decide)
  · have hkb : k ≤ k * ctx.buf_len := by
      calc k = k * 1 := (Nat.mul_one k).symm
        _ ≤ k * ctx.buf_len := Nat.mul_le_mul_left k hbl
    revert h0
    simp only [fbw_write, Bool.not_true, Bool.or_self, Bool.false_eq_true,
      if_false, hcap]
    intro h0
    have hlp0 : (writeLoop e (k * ctx.buf_len + 2) ctx (k * ctx.buf_len) 0).1
        = 0 := by
      by_contra hne
      simp only [if_pos hne, prodFst, prodSnd] at h0
      exact absurd h0 hne
    obtain ⟨j1, j2, j3⟩ := writeLoop_exact_multiple e k
      (k * ctx.buf_len + 2) ctx (k * ctx.buf_len) 0 hbb hbl (by omega)
      (by omega) hlp0
    revert h0
    generalize hL : writeLoop e (k * ctx.buf_len + 2) ctx (k * ctx.buf_len) 0
      = lp
    rw [hL] at j1 j2 j3 hlp0
    intro h0
    have hlp : ¬lp.1 ≠ 0 := not_not.mpr hlp0
    simp only [if_neg hlp, prodFst, prodSnd]
    have ht : ¬lp.2.2.1 < k * ctx.buf_len := by omega
    simp only [if_neg ht, Bool.false_eq_true, false_and, if_false,
      prodFst, prodSnd]
    exact ⟨j3, j2⟩

/-- C6 (witness): the amended theorem at `freshCtx` with `k = 2`: two
commits, empty buffer afterwards. -/
theorem C6_witness :
    (fbw_write false true true freshCtx (2 * freshCtx.buf_len) false).1
      = 0 ∧
    (writeCalls
      (fbw_write false true true freshCtx
        (2 * freshCtx.buf_len) false).2.2).length = 2 ∧
    (fbw_write false true true freshCtx
      (2 * freshCtx.buf_len) false).2.1.buf_bytes = 0 :=
  ⟨by decide,
   (C6_exact_multiple false freshCtx 2 (by decide) (by decide) (by decide)
     (by decide)).1,
   (C6_exact_multiple false freshCtx 2 (by decide) (by decide) (by decide)
     (by decide)).2⟩

/-- C7 (counterexample): two consecutive `fbw_erase` calls on offsets 5000
and 5001 — both inside the page starting at 4096 — issue ZERO erases, not
exactly one, when the stored bookmark already equals that page's start:
both calls return success immediately. -/
theorem C7_counterexample :
    (bookmarkedCtx.fdev.getPageInfo 5000).1 = 0 ∧
    (bookmarkedCtx.fdev.getPageInfo 5001).1 = 0 ∧
    (bookmarkedCtx.fdev.getPageInfo 5001).2.start_offset
      = (bookmarkedCtx.fdev.getPageInfo 5000).2.start_offset ∧
    (fbw_erase bookmarkedCtx 5000).1 = 0 ∧
    (fbw_erase (fbw_erase bookmarkedCtx 5000).2.1 5001).1 = 0 ∧
    (eraseCalls (fbw_erase bookmarkedCtx 5000).2.2).length
        + (eraseCalls
            (fbw_erase (fbw_erase bookmarkedCtx 5000).2.1 5001).2.2).length
      ≠ 1 := by
  decide

/-- C7 (amended): two consecutive `fbw_erase` calls whose offsets resolve
to the same page issue at most one erase; exactly one when the stored
bookmark differs from that page's start before the first call, and in that
case the second call returns success immediately without erasing. -/
theorem C7_erase_idempotent (ctx : FbwCtx) (off1 off2 : Nat)
    (h1 : (ctx.fdev.getPageInfo off1).1 = 0)
    (h2 : (ctx.fdev.getPageInfo off2).1 = 0)
    (hsame : (ctx.fdev.getPageInfo off2).2.start_offset
      = (ctx.fdev.getPageInfo off1).2.start_offset) :
    (eraseCalls (fbw_erase ctx off1).2.2).length
        + (eraseCalls (fbw_erase (fbw_erase ctx off1).2.1 off2).2.2).length
      ≤ 1 ∧
    (ctx.last_erased_page_start_offset
        ≠ (ctx.fdev.getPageInfo off1).2.start_offset →
      (eraseCalls (fbw_erase ctx off1).2.2).length = 1 ∧
      (fbw_erase (fbw_erase ctx off1).2.1 off2).1 = 0 ∧
      (eraseCalls
        (fbw_erase (fbw_erase ctx off1).2.1 off2).2.2).length = 0) := by
  by_cases hbm : ctx.last_erased_page_start_offset
      = (ctx.fdev.getPageInfo off1).2.start_offset
  · constructor
    · simp [fbw_erase, h1, h2, hsame, hbm, eraseCalls]
    · intro hne
      exact absurd hbm hne
  · constructor
    · simp [fbw_erase, h1, h2, hsame, hbm, eraseCalls]
    · intro _
      refine ⟨?_, ?_, ?_⟩ <;> simp [fbw_erase, h1, h2, hsame, hbm, eraseCalls]

/-- C7 (witness): the amended theorem at `freshCtx` (bookmark `-1`),
offsets 5000 and 5001: the first call erases, the second is a no-op. -/
theorem C7_witness :
    ((eraseCalls (fbw_erase freshCtx 5000).2.2).length
        + (eraseCalls
            (fbw_erase (fbw_erase freshCtx 5000).2.1 5001).2.2).length
      ≤ 1) ∧
    (freshCtx.last_erased_page_start_offset
        ≠ (freshCtx.fdev.getPageInfo 5000).2.start_offset →
      (eraseCalls (fbw_erase freshCtx 5000).2.2).length = 1 ∧
      (fbw_erase (fbw_erase freshCtx 5000).2.1 5001).1 = 0 ∧
      (eraseCalls
        (fbw_erase (fbw_erase freshCtx 5000).2.1 5001).2.2).length = 0) :=
  C7_erase_idempotent freshCtx 5000 5001 (by decide) (by decide) (by decide)

/-- C8 (counterexample): the invariant `bytes_written + buf_bytes ≤
available` is NOT preserved by every write: from the valid state
`boundaryCtx` (1 + 0 ≤ 1), the call `write(len = 2^32 - 1)` slips past the
wrapped capacity check, succeeds, and leaves
`bytes_written + buf_bytes = 2^32 > available = 1`. -/
theorem C8_counterexample :
    boundaryCtx.bytes_written + boundaryCtx.buf_bytes
      ≤ boundaryCtx.available ∧
    (fbw_write false true true boundaryCtx (2 ^ 32 - 1) false).1 = 0 ∧
    ¬((fbw_write false true true boundaryCtx (2 ^ 32 - 1) false).2.1.bytes_written
        + (fbw_write false true true boundaryCtx
            (2 ^ 32 - 1) false).2.1.buf_bytes
      ≤ (fbw_write false true true boundaryCtx
          (2 ^ 32 - 1) false).2.1.available) := by
  decide

/-- C8 (amended): `bytes_written + buf_bytes ≤ available` holds after a
successful init, is preserved by every `fbw_erase` (success or failure),
and is preserved by every `fbw_write` — success or failure — provided the
exact sum `bytes_written + buf_bytes + len` does not wrap `size_t`
(without that proviso the wrapped capacity check can falsely pass, see the
counterexample). -/
theorem C8_invariant (e : Bool) :
    (∀ (cp fp bp : Bool) (ctx : FbwCtx) (fdev : FlashDevice)
       (bl off sz : Nat) (cb : Option (Nat → Nat → Int)),
      (fbw_init e cp fp bp ctx fdev bl off sz cb).1 = 0 →
      (fbw_init e cp fp bp ctx fdev bl off sz cb).2.bytes_written
          + (fbw_init e cp fp bp ctx fdev bl off sz cb).2.buf_bytes
        ≤ (fbw_init e cp fp bp ctx fdev bl off sz cb).2.available) ∧
    (∀ (ctx : FbwCtx) (off : Nat),
      ctx.bytes_written + ctx.buf_bytes ≤ ctx.available →
      (fbw_erase ctx off).2.1.bytes_written
          + (fbw_erase ctx off).2.1.buf_bytes
        ≤ (fbw_erase ctx off).2.1.available) ∧
    (∀ (ctx : FbwCtx) (len : Nat) (flush : Bool),
      ctx.buf_bytes ≤ ctx.buf_len →
      ctx.bytes_written + ctx.buf_bytes ≤ ctx.available →
      ctx.bytes_written + ctx.buf_bytes + len < SIZE_T_MOD →
      (fbw_write e true true ctx len flush).2.1.bytes_written
          + (fbw_write e true true ctx len flush).2.1.buf_bytes
        ≤ (fbw_write e true true ctx len flush).2.1.available) := by
  refine ⟨?_, ?_, ?_⟩
  · intro cp fp bp ctx fdev bl off sz cb
    revert cb
    simp only [fbw_init]
    intro cb
    by_cases hp : (!cp || !fp || !bp) = true
    · simp only [if_pos hp, prodFst, prodSnd]
      intro h0
      exact absurd h0 (by decide)
    · simp only [if_neg hp]
      rcases hscan : layoutScan bl fdev.layout 0 with _ | t
      · intro h0
        exact absurd h0 (show ¬(-EFAULT : Int) = 0 by decide)
      · by_cases hchk : (off + sz) % SIZE_T_MOD > t ∨
            off % fdev.write_block_size ≠ 0
        · simp only [if_pos hchk, prodFst, prodSnd]
          intro h0
          exact absurd h0 (by decide)
        · simp only [if_neg hchk, prodFst, prodSnd]
          intro _
          exact Nat.zero_le _
  · intro ctx off hinv
    have := fbw_erase_state ctx off
    omega
  · intro ctx len flush hbb hinv hnw
    by_cases hcap : capacityExceeded ctx len = true
    · simp only [fbw_write, Bool.not_true, Bool.or_self, Bool.false_eq_true,
        if_false, hcap, if_true, prodFst, prodSnd]
      exact hinv
    · have hle : ctx.bytes_written + ctx.buf_bytes + len ≤ ctx.available := by
        unfold capacityExceeded at hcap
        rw [Nat.mod_eq_of_lt hnw] at hcap
        simp at hcap
        omega
      simp only [fbw_write, Bool.not_true, Bool.or_self, Bool.false_eq_true,
        if_false, hcap]
      generalize hL : writeLoop e (len + 2) ctx len 0 = lp
      have hloop := writeLoop_state e (len + 2) ctx len 0 hbb (Nat.zero_le _)
      rw [hL] at hloop
      obtain ⟨l1, l2, l3, l4, l5, l6, l7, l8, l9, l10⟩ := hloop
      by_cases hlp : lp.1 ≠ 0
      · simp only [if_pos hlp, prodFst, prodSnd]
        omega
      · simp only [if_neg hlp, prodFst, prodSnd]
        have hl0 := l10 (not_not.mp hlp)
        by_cases ht : lp.2.2.1 < len
        · simp only [if_pos ht]
          by_cases hf : flush = true ∧
              0 < ({ lp.2.1 with
                  buf_bytes := lp.2.1.buf_bytes + (len - lp.2.2.1) } :
                FbwCtx).buf_bytes
          · simp only [if_pos hf, prodFst, prodSnd]
            generalize hS : flash_sync e
              { lp.2.1 with
                buf_bytes := lp.2.1.buf_bytes + (len - lp.2.2.1) } = s2
            have hst := flash_sync_state e
              { lp.2.1 with
                buf_bytes := lp.2.1.buf_bytes + (len - lp.2.2.1) }
            rw [hS] at hst
            obtain ⟨g1, g2, g3, g4, g5, g6, g7⟩ :=
              fillBuf_fields lp.2.1 (lp.2.1.buf_bytes + (len - lp.2.2.1))
            rw [g2, g3, g5] at hst
            omega
          · simp only [if_neg hf, prodFst, prodSnd]
            omega
        · simp only [if_neg ht]
          by_cases hf : flush = true ∧ 0 < lp.2.1.buf_bytes
          · simp only [if_pos hf, prodFst, prodSnd]
            generalize hS : flash_sync e lp.2.1 = s2
            have hst := flash_sync_state e lp.2.1
            rw [hS] at hst
            omega
          · simp only [if_neg hf, prodFst, prodSnd]
            omega

/-- C8 (witness): the amended theorem at concrete calls: a successful
init, an erase on `freshCtx`, and a 700-byte flushed write on `freshCtx`
all leave `bytes_written + buf_bytes ≤ available`. -/
theorem C8_witness :
    ((fbw_init false true true true staged2Ctx okDevice 512 65536 0
        none).2.bytes_written
      + (fbw_init false true true true staged2Ctx okDevice 512 65536 0
          none).2.buf_bytes
      ≤ (fbw_init false true true true staged2Ctx okDevice 512 65536 0
          none).2.available) ∧
    ((fbw_erase freshCtx 5000).2.1.bytes_written
        + (fbw_erase freshCtx 5000).2.1.buf_bytes
      ≤ (fbw_erase freshCtx 5000).2.1.available) ∧
    ((fbw_write false true true freshCtx 700 true).2.1.bytes_written
        + (fbw_write false true true freshCtx 700 true).2.1.buf_bytes
      ≤ (fbw_write false true true freshCtx 700 true).2.1.available) :=
  ⟨(C8_invariant false).1 true true true staged2Ctx okDevice 512 65536 0
     none (by decide),
   (C8_invariant false).2.1 freshCtx 5000 (by decide),
   (C8_invariant false).2.2 freshCtx 700 true (by decide) (by decide)
     (by decide)⟩

/-- C9: a failing `fbw_init` returns the context completely unmodified —
no field is written before all validation has passed. -/
theorem C9_init_error_frame (e cp fp bp : Bool) (ctx : FbwCtx)
    (fdev : FlashDevice) (bl off sz : Nat) (cb : Option (Nat → Nat → Int))
    (h : (fbw_init e cp fp bp ctx fdev bl off sz cb).1 ≠ 0) :
    (fbw_init e cp fp bp ctx fdev bl off sz cb).2 = ctx := by
  revert h
  simp only [fbw_init]
  by_cases hp : (!cp || !fp || !bp) = true
  · simp only [if_pos hp, prodFst, prodSnd]
    intro _
    trivial
  · simp only [if_neg hp]
    rcases hscan : layoutScan bl fdev.layout 0 with _ | t
    · intro _
      rfl
    · by_cases hchk : (off + sz) % SIZE_T_MOD > t ∨
          off % fdev.write_block_size ≠ 0
      · simp only [if_pos hchk, prodFst, prodSnd]
        intro _
        trivial
      · simp only [if_neg hchk, prodFst, prodSnd]
        intro h
        exact absurd rfl h

/-- C9 (witness): a failing init (absent ctx reference) leaves the
concrete context untouched. -/
theorem C9_witness :
    (fbw_init false false true true staged2Ctx okDevice 512 0 0 none).1
      ≠ 0 ∧
    (fbw_init false false true true staged2Ctx okDevice 512 0 0 none).2
      = staged2Ctx :=
  ⟨by decide,
   C9_init_error_frame false false true true staged2Ctx okDevice 512 0 0
     none (by decide)⟩

/-- C10: `fbw_erase` records the resolved page start in the bookmark
before issuing the driver erase, so when the driver erase fails the error
is returned but the page is considered done: a subsequent `fbw_erase` on
any offset of that page returns success immediately and issues no
erase. -/
theorem C10_failed_erase_not_retried (ctx : FbwCtx) (off1 off2 : Nat)
    (h1 : (ctx.fdev.getPageInfo off1).1 = 0)
    (hbm : ctx.last_erased_page_start_offset
      ≠ (ctx.fdev.getPageInfo off1).2.start_offset)
    (herr : ctx.fdev.eraseRc (ctx.fdev.getPageInfo off1).2.start_offset
      (ctx.fdev.getPageInfo off1).2.size ≠ 0)
    (h2 : (ctx.fdev.getPageInfo off2).1 = 0)
    (hsame : (ctx.fdev.getPageInfo off2).2.start_offset
      = (ctx.fdev.getPageInfo off1).2.start_offset) :
    (fbw_erase ctx off1).1 ≠ 0 ∧
    (fbw_erase ctx off1).2.1.last_erased_page_start_offset
      = (ctx.fdev.getPageInfo off1).2.start_offset ∧
    (fbw_erase (fbw_erase ctx off1).2.1 off2).1 = 0 ∧
    eraseCalls (fbw_erase (fbw_erase ctx off1).2.1 off2).2.2 = [] := by
  refine ⟨?_, ?_, ?_, ?_⟩ <;>
    simp [fbw_erase, h1, h2, hsame, hbm, herr, eraseCalls]

/-- C10 (witness): on the device whose erases fail with `-9`, the first
call fails but bookmarks the page at 4096; the second call on the same
page is a successful no-op. -/
theorem C10_witness :
    (fbw_erase eraseFailCtx 5000).1 ≠ 0 ∧
    (fbw_erase eraseFailCtx 5000).2.1.last_erased_page_start_offset
      = (eraseFailCtx.fdev.getPageInfo 5000).2.start_offset ∧
    (fbw_erase (fbw_erase eraseFailCtx 5000).2.1 5001).1 = 0 ∧
    eraseCalls (fbw_erase (fbw_erase eraseFailCtx 5000).2.1 5001).2.2
      = [] :=
  C10_failed_erase_not_retried eraseFailCtx 5000 5001 (by decide)
    (by decide) (by decide) (by decide) (by decide)
